import Mathlib

/-!
Verification of the go-proxy-eins wire protocol against its specification.

The Go sources are shallowly embedded: byte streams are `List Nat` (each
element a byte value `< 256`), stateful readers/writers become explicit
state passing, machine integers are `Nat`/`Int` with explicit wrapping
where the Go code can overflow, and fallible operations return
`Except`/`Option`.  External cryptographic primitives (XChaCha20-Poly1305,
HMAC-SHA256) are parameters constrained only by their library contracts.
-/

set_option maxRecDepth 16384

namespace GoProxy

/- Bytes on the wire are plain `Nat`s; well-formed streams have every
element `< 256`.  (No alias type: `omega` needs syntactic `Nat`.) -/

/-- `binary.BigEndian.PutUint16`: the two big-endian bytes of `n`
(after the Go `uint16` cast, callers pass `n % 65536`). -/
def be16 (n : Nat) : List Nat := [n / 256 % 256, n % 256]

/-- `binary.BigEndian.Uint16` of two bytes. -/
def decode16 (a b : Nat) : Nat := a * 256 + b

/-- `binary.BigEndian.PutUint64`: the eight big-endian bytes of `n % 2^64`. -/
def be64 (n : Nat) : List Nat :=
  [n / 2 ^ 56 % 256, n / 2 ^ 48 % 256, n / 2 ^ 40 % 256, n / 2 ^ 32 % 256,
   n / 2 ^ 24 % 256, n / 2 ^ 16 % 256, n / 2 ^ 8 % 256, n % 256]

/-- `binary.BigEndian.Uint64`: big-endian value of a byte list. -/
def decodeBE : List Nat → Nat
  | [] => 0
  | b :: tl => b * 256 ^ tl.length + decodeBE tl

/-- `io.ReadFull(src, buf)` on a pure stream: take exactly `n` bytes or fail. -/
def readFull (n : Nat) (s : List Nat) : Option (List Nat × List Nat) :=
  if n ≤ s.length then some (s.take n, s.drop n) else none

theorem be16_length (n : Nat) : (be16 n).length = 2 := rfl

theorem be64_length (n : Nat) : (be64 n).length = 8 := rfl

theorem decode16_be16 (n : Nat) (h : n < 65536) :
    decode16 (n / 256 % 256) (n % 256) = n := by
  unfold decode16; omega

theorem decodeBE_be64 (n : Nat) (h : n < 2 ^ 64) : decodeBE (be64 n) = n := by
  simp only [be64, decodeBE, List.length]
  norm_num
  omega

theorem be64_inj (m n : Nat) (hm : m < 2 ^ 64) (hn : n < 2 ^ 64)
    (h : be64 m = be64 n) : m = n := by
  have := congrArg decodeBE h
  rwa [decodeBE_be64 m hm, decodeBE_be64 n hn] at this

theorem readFull_append (pre post : List Nat) :
    readFull pre.length (pre ++ post) = some (pre, post) := by
  unfold readFull
  rw [if_pos (by simp)]
  simp

/-! ## Cipher record layer (`internal/cipher`)

`Cipher` wraps an XChaCha20-Poly1305 AEAD from `golang.org/x/crypto`.
The AEAD itself is external; it is modelled abstractly by its library
contract: `Seal` appends a 16-byte tag (`Overhead() = 16` for
`chacha20poly1305.NewX`) and `Open` inverts `Seal` on the same nonce. -/

/-- Abstract AEAD in the sense of `cipher.AEAD` as used by the record layer:
`seal nonce p` is `aead.Seal(nil, nonce, p, nil)` and `opn nonce c` is
`aead.Open(nil, nonce, c, nil)` (`none` on authentication failure). -/
structure AEAD where
  Seal : List Nat → List Nat → List Nat
  Open : List Nat → List Nat → Option (List Nat)
  Seal_length : ∀ nonce p, (Seal nonce p).length = p.length + 16
  Open_Seal : ∀ nonce p, Open nonce (Seal nonce p) = some p

/-- `MaxPacketSize = 0xFFFF` from `internal/cipher`. -/
def MaxPacketSize : Nat := 0xFFFF

/-- `aead.Overhead()` for XChaCha20-Poly1305: the 16-byte Poly1305 tag. -/
def aeadOverhead : Nat := 16

inductive WriteErr
  | tooLarge
  deriving DecidableEq

inductive ReadErr
  | shortRead
  | packetTooLarge
  | decryptFailed
  deriving DecidableEq

/-- Outcome of one `SecureWriter.Write` call. -/
structure WriteResult where
  wire : List Nat
  n : Nat
  nonce : Nat
  deriving DecidableEq

/-- `SecureWriter.Write(p)`, given the current `sw.nonce` counter (a Go
`uint64`, so it is kept reduced mod `2^64` and the increment wraps).
Returns the bytes written to `sw.dst`, the returned count, and the new
counter. -/
def secureWrite (A : AEAD) (nonce : Nat) (p : List Nat) : Except WriteErr WriteResult :=
  if p.length = 0 then .ok ⟨[], 0, nonce⟩
  else if p.length > MaxPacketSize - aeadOverhead then .error .tooLarge
  else
    .ok ⟨be16 ((A.Seal (List.replicate 16 0 ++ be64 (nonce % 2 ^ 64)) p).length % 65536)
           ++ (List.replicate 16 0 ++ be64 (nonce % 2 ^ 64))
           ++ A.Seal (List.replicate 16 0 ++ be64 (nonce % 2 ^ 64)) p,
         p.length, (nonce + 1) % 2 ^ 64⟩

/-- `SecureReader.Read(p)` with `len(p) = bufLen` on a pure input stream.
Returns the bytes placed into `p` and the unconsumed stream.  (The
reader's `nonce` and `buffer` fields are never consulted by `Read` in the
source, so they are not part of the state.)  Note the final
`n = copy(p, plaintext)`: the plaintext is truncated to the caller's
buffer with no error. -/
def secureRead (A : AEAD) (bufLen : Nat) : List Nat → Except ReadErr (List Nat × List Nat)
  | a :: b :: s1 =>
    if decode16 a b > MaxPacketSize then .error .packetTooLarge
    else
      match readFull 24 s1 with
      | none => .error .shortRead
      | some (nonceBytes, s2) =>
        match readFull (decode16 a b) s2 with
        | none => .error .shortRead
        | some (encryptedData, s3) =>
          match A.Open nonceBytes encryptedData with
          | none => .error .decryptFailed
          | some plaintext => .ok (plaintext.take bufLen, s3)
  | _ => .error .shortRead

/-- A concrete AEAD instance for witnesses: the "tag" is 16 zero bytes. -/
def toyAEAD : AEAD where
  Seal := fun _ p => p ++ List.replicate 16 0
  Open := fun _ c =>
    if 16 ≤ c.length ∧ c.drop (c.length - 16) = List.replicate 16 0 then
      some (c.take (c.length - 16))
    else none
  Seal_length := by intro nonce p; simp
  Open_Seal := by
    intro nonce p
    dsimp only
    rw [if_pos]
    · congr 1
      simp
    · constructor
      · simp
      · simp

theorem secureWrite_ok (A : AEAD) (nonce : Nat) (p : List Nat)
    (h1 : ¬ p.length = 0) (h2 : p.length ≤ 65519) :
    secureWrite A nonce p = .ok
      ⟨be16 (p.length + 16) ++ (List.replicate 16 0 ++ be64 (nonce % 2 ^ 64))
         ++ A.Seal (List.replicate 16 0 ++ be64 (nonce % 2 ^ 64)) p,
       p.length, (nonce + 1) % 2 ^ 64⟩ := by
  unfold secureWrite
  rw [if_neg h1, if_neg (by unfold MaxPacketSize aeadOverhead; omega)]
  rw [A.Seal_length, Nat.mod_eq_of_lt (by omega)]

theorem secureRead_record (A : AEAD) (bufLen : Nat) (nb p rest : List Nat)
    (hnb : nb.length = 24) (h2 : p.length ≤ 65519) :
    secureRead A bufLen (be16 (p.length + 16) ++ nb ++ A.Seal nb p ++ rest)
      = .ok (p.take bufLen, rest) := by
  have hct : (A.Seal nb p).length = p.length + 16 := A.Seal_length nb p
  have h1 : readFull 24 (nb ++ (A.Seal nb p ++ rest)) = some (nb, A.Seal nb p ++ rest) := by
    rw [← hnb]; exact readFull_append nb (A.Seal nb p ++ rest)
  have h2r : readFull (p.length + 16) (A.Seal nb p ++ rest) = some (A.Seal nb p, rest) := by
    rw [← hct]; exact readFull_append (A.Seal nb p) rest
  have hsize : ¬ decode16 ((p.length + 16) / 256 % 256) ((p.length + 16) % 256)
      > MaxPacketSize := by
    rw [decode16_be16 (p.length + 16) (by omega)]; unfold MaxPacketSize; omega
  simp only [be16, List.cons_append, List.nil_append, List.append_assoc]
  rw [secureRead, if_neg hsize, decode16_be16 (p.length + 16) (by omega)]
  simp [h1, h2r, A.Open_Seal]

/-- Claim C3: for every plaintext `p` with `1 ≤ |p| ≤ 65519` and every AEAD
key material, one `SecureWriter.Write` of `p` produces a single record
`len_be16 ‖ nonce[24] ‖ ciphertext_with_tag`, and `SecureReader.Read` of
that record with the same cipher into a buffer of length at least `|p|`
returns exactly `p`. -/
theorem C3_record_round_trip (A : AEAD) (nonce bufLen : Nat) (p rest : List Nat)
    (h1 : 1 ≤ p.length) (h2 : p.length ≤ 65519) (hbuf : p.length ≤ bufLen) :
    ∃ w, secureWrite A nonce p = .ok w ∧ w.n = p.length ∧
      secureRead A bufLen (w.wire ++ rest) = .ok (p, rest) := by
  refine ⟨_, secureWrite_ok A nonce p (by omega) h2, rfl, ?_⟩
  have := secureRead_record A bufLen (List.replicate 16 0 ++ be64 (nonce % 2 ^ 64))
    p rest (by simp [be64]) h2
  rw [List.take_of_length_le hbuf] at this
  simpa [List.append_assoc] using this

theorem C3_record_round_trip_witness :
    ∃ w, secureWrite toyAEAD 0 [42] = .ok w ∧ w.n = [42].length ∧
      secureRead toyAEAD 1 (w.wire ++ []) = .ok ([42], []) :=
  C3_record_round_trip toyAEAD 0 1 [42] [] (by decide) (by decide) (by decide)

/-- Claim C4 counterexample: a record whose payload `[7, 8]` is longer than
the caller's 1-byte buffer is read back by `SecureReader.Read` with **no
error**, silently delivering the truncated prefix `[7]`.  (The wire bytes
are exactly `secureWrite toyAEAD 0 [7, 8]`: length 18, all-zero nonce,
toy ciphertext.) -/
theorem C4_counterexample :
    secureRead toyAEAD 1
      ([0, 18] ++ (List.replicate 16 0 ++ be64 0) ++ ([7, 8] ++ List.replicate 16 0)) =
      .ok ([7], []) := by
  rfl

/-- Claim C4 as amended: when the decrypted payload is longer than the
caller's buffer, `SecureReader.Read` does not fail; it performs
`copy(p, plaintext)`, returning the first `bufLen` bytes of the payload
and silently discarding the remainder (there is no `BufferTooSmall`
error in the cipher record layer). -/
theorem C4_read_truncates (A : AEAD) (nonce bufLen : Nat) (p rest : List Nat)
    (h1 : 1 ≤ p.length) (h2 : p.length ≤ 65519) :
    ∃ w, secureWrite A nonce p = .ok w ∧
      secureRead A bufLen (w.wire ++ rest) = .ok (p.take bufLen, rest) := by
  refine ⟨_, secureWrite_ok A nonce p (by omega) h2, ?_⟩
  have := secureRead_record A bufLen (List.replicate 16 0 ++ be64 (nonce % 2 ^ 64))
    p rest (by simp [be64]) h2
  simpa [List.append_assoc] using this

theorem C4_read_truncates_witness :
    ∃ w, secureWrite toyAEAD 0 [7, 8] = .ok w ∧
      secureRead toyAEAD 1 (w.wire ++ []) = .ok ([7, 8].take 1, []) :=
  C4_read_truncates toyAEAD 0 1 [7, 8] [] (by decide) (by decide)

/-- Claim C9: the `PacketTooLarge` branch of `SecureReader.Read` is
unreachable.  The record length is decoded from two wire bytes by
`binary.BigEndian.Uint16`, so it is at most `65535 = MaxPacketSize` and
the `dataLen > MaxPacketSize` guard can never fire: on no input stream
does `Read` return the packet-too-large error. -/
theorem C9_packetTooLarge_unreachable (A : AEAD) (bufLen : Nat) (s : List Nat)
    (hs : ∀ b ∈ s, b < 256) :
    secureRead A bufLen s ≠ .error .packetTooLarge := by
  match s with
  | [] => simp [secureRead]
  | [a] => simp [secureRead]
  | a :: b :: s1 =>
    have ha : a < 256 := hs a (by simp)
    have hb : b < 256 := hs b (by simp)
    have hd : ¬ decode16 a b > MaxPacketSize := by
      unfold decode16 MaxPacketSize; omega
    rw [secureRead, if_neg hd]
    cases hrf : readFull 24 s1 with
    | none => simp
    | some v =>
      cases hrd : readFull (decode16 a b) v.2 with
      | none => simp [hrd]
      | some u =>
        cases hop : A.Open v.1 u.1 with
        | none => simp [hrd, hop]
        | some pt => simp [hrd, hop]

theorem C9_packetTooLarge_unreachable_witness :
    secureRead toyAEAD 4 [255, 255, 3] ≠ .error .packetTooLarge :=
  C9_packetTooLarge_unreachable toyAEAD 4 [255, 255, 3] (by decide)

/-- Claim C10: `SecureWriter.Write` on the empty slice returns `(0, nil)`
immediately: no bytes reach the underlying stream and the send counter is
unchanged. -/
theorem C10_empty_write (A : AEAD) (nonce : Nat) :
    secureWrite A nonce [] = .ok ⟨[], 0, nonce⟩ := rfl

/-! ## Nonce discipline of one `SecureWriter` (one session direction) -/

/-- The 24-byte nonce `SecureWriter.Write` emits when its counter is `c`:
sixteen zero bytes, then the counter big-endian in `nonceBytes[16:]`. -/
def nonceBytesOf (c : Nat) : List Nat := List.replicate 16 0 ++ be64 (c % 2 ^ 64)

/-- Run a sequence of `SecureWriter.Write` calls starting from counter `c`,
collecting the nonce field (wire bytes `[2, 26)`) of every record that
reaches the stream, together with the final counter. -/
def writeNonces (A : AEAD) : Nat → List (List Nat) → Except WriteErr (List (List Nat) × Nat)
  | c, [] => .ok ([], c)
  | c, p :: ps =>
    match secureWrite A c p with
    | .error e => .error e
    | .ok w =>
      match writeNonces A w.nonce ps with
      | .error e => .error e
      | .ok (ns, cEnd) =>
        .ok ((if w.wire = [] then ns else (w.wire.drop 2).take 24 :: ns), cEnd)

theorem writeNonces_ok (A : AEAD) (ps : List (List Nat)) : ∀ c : Nat, c < 2 ^ 64 →
    (∀ p ∈ ps, 1 ≤ p.length ∧ p.length ≤ 65519) →
    writeNonces A c ps =
      .ok ((List.range ps.length).map (fun k => nonceBytesOf (c + k)),
           (c + ps.length) % 2 ^ 64) := by
  induction ps with
  | nil =>
    intro c hc _
    simp only [writeNonces, List.length_nil, List.range_zero, List.map_nil]
    rw [Nat.add_zero, Nat.mod_eq_of_lt hc]
  | cons p tl ih =>
    intro c hc hb
    have hp := hb p (by simp)
    have hw := secureWrite_ok A c p (by omega) hp.2
    have hrec := ih ((c + 1) % 2 ^ 64) (Nat.mod_lt _ (by norm_num))
      (fun q hq => hb q (by simp [hq]))
    have hwire : ¬ (be16 (p.length + 16) ++ (List.replicate 16 0 ++ be64 (c % 2 ^ 64))
        ++ A.Seal (List.replicate 16 0 ++ be64 (c % 2 ^ 64)) p) = [] := by
      simp [be16]
    have hdrop : ((be16 (p.length + 16) ++ (List.replicate 16 0 ++ be64 (c % 2 ^ 64))
        ++ A.Seal (List.replicate 16 0 ++ be64 (c % 2 ^ 64)) p).drop 2).take 24
        = nonceBytesOf c := by
      have h24 : (List.replicate 16 (0 : Nat) ++ be64 (c % 2 ^ 64)).length = 24 := by
        simp [be64]
      simp only [be16, List.cons_append, List.nil_append, List.drop_succ_cons,
        List.drop_zero, List.append_assoc]
      rw [← List.append_assoc, ← h24, List.take_left]
      simp [nonceBytesOf]
    have hmap : (List.range tl.length).map (fun k => nonceBytesOf ((c + 1) % 2 ^ 64 + k))
        = (List.range tl.length).map (fun k => nonceBytesOf (c + (k + 1))) := by
      refine List.map_congr_left (fun k _ => ?_)
      have hmm : ((c + 1) % 2 ^ 64 + k) % 2 ^ 64 = (c + (k + 1)) % 2 ^ 64 := by
        rw [Nat.mod_add_mod]
        exact congrArg (· % 2 ^ 64) (by omega)
      simp only [nonceBytesOf, hmm]
    have hr : (List.range (tl.length + 1)).map (fun k => nonceBytesOf (c + k))
        = nonceBytesOf c :: (List.range tl.length).map (fun k => nonceBytesOf (c + (k + 1))) := by
      rw [List.range_succ_eq_map, List.map_cons, List.map_map]
      rfl
    have hcnt : ((c + 1) % 2 ^ 64 + tl.length) % 2 ^ 64 = (c + (tl.length + 1)) % 2 ^ 64 := by
      rw [Nat.mod_add_mod]
      exact congrArg (· % 2 ^ 64) (by omega)
    rw [writeNonces, hw]
    simp only [hrec]
    rw [if_neg hwire, hdrop, hmap, hcnt, List.length_cons, hr]

/-- Claim C2 counterexample: the send counter is a Go `uint64` and wraps.
In a direction that emits `2^64 + 1` one-byte records, record number
`2^64` carries the same nonce as record number `0` (counter wrapped back
to 0), so the emitted nonces are neither strictly increasing nor all
distinct, contrary to the claim. -/
theorem C2_counterexample :
    writeNonces toyAEAD 0 (List.replicate (2 ^ 64 + 1) [0]) =
      .ok ((List.range (2 ^ 64 + 1)).map (fun k => nonceBytesOf k), 1) ∧
    ((List.range (2 ^ 64 + 1)).map (fun k => nonceBytesOf k)).get? (2 ^ 64)
      = some (nonceBytesOf 0) ∧
    ((List.range (2 ^ 64 + 1)).map (fun k => nonceBytesOf k)).get? 0
      = some (nonceBytesOf 0) := by
  have hwrap : nonceBytesOf (2 ^ 64) = nonceBytesOf 0 := by
    unfold nonceBytesOf
    rw [Nat.mod_self, Nat.zero_mod]
  refine ⟨?_, ?_, ?_⟩
  · have h := writeNonces_ok toyAEAD (List.replicate (2 ^ 64 + 1) [0]) 0 (by norm_num)
      (fun p hp => by rw [List.eq_of_mem_replicate hp]; exact ⟨le_refl 1, by norm_num⟩)
    have hlen : (List.replicate (2 ^ 64 + 1) ([0] : List Nat)).length = 2 ^ 64 + 1 :=
      List.length_replicate _ _
    rw [hlen, Nat.zero_add] at h
    have hfun : (fun k => nonceBytesOf (0 + k)) = (fun k => nonceBytesOf k) := by
      funext k
      rw [Nat.zero_add]
    rw [hfun] at h
    have hmod : (2 ^ 64 + 1) % 2 ^ 64 = 1 := by norm_num
    rw [hmod] at h
    exact h
  · rw [List.get?_map, List.get?_range (by norm_num), Option.map_some', hwrap]
  · rw [List.get?_map, List.get?_range (by norm_num), Option.map_some']

/-- Claim C2 as amended: for any sequence of successful writes on one
`SecureWriter`, the `k`-th emitted nonce is 24 bytes: bytes `[0..16)` zero
and bytes `[16..24)` the big-endian counter, which starts at 0 and
increments by 1 per record **modulo `2^64`** (the Go `uint64` wraps); as
long as at most `2^64` records are emitted the nonces are all distinct. -/
theorem C2_nonce_layout (A : AEAD) (ps : List (List Nat))
    (h : ∀ p ∈ ps, 1 ≤ p.length ∧ p.length ≤ 65519) (hn : ps.length ≤ 2 ^ 64) :
    writeNonces A 0 ps =
      .ok ((List.range ps.length).map (fun k => List.replicate 16 0 ++ be64 k),
           ps.length % 2 ^ 64) ∧
    ((List.range ps.length).map (fun k => List.replicate 16 0 ++ be64 k)).Nodup := by
  constructor
  · have hws := writeNonces_ok A ps 0 (by norm_num) h
    rw [hws, Nat.zero_add]
    have hfun : (List.range ps.length).map (fun k => nonceBytesOf (0 + k))
        = (List.range ps.length).map (fun k => List.replicate 16 0 ++ be64 k) := by
      refine List.map_congr_left (fun k hk => ?_)
      have hklt : k < 2 ^ 64 := lt_of_lt_of_le (List.mem_range.mp hk) hn
      rw [Nat.zero_add]
      unfold nonceBytesOf
      rw [Nat.mod_eq_of_lt hklt]
    rw [hfun]
  · refine List.Nodup.map_on ?_ (List.nodup_range _)
    intro j hj k hk hjk
    have hjlt : j < 2 ^ 64 := lt_of_lt_of_le (List.mem_range.mp hj) hn
    have hklt : k < 2 ^ 64 := lt_of_lt_of_le (List.mem_range.mp hk) hn
    exact be64_inj j k hjlt hklt (List.append_cancel_left hjk)

theorem C2_nonce_layout_witness :
    writeNonces toyAEAD 0 [[1], [2, 3]] =
      .ok ((List.range 2).map (fun k => List.replicate 16 0 ++ be64 k), 2 % 2 ^ 64) ∧
    ((List.range 2).map (fun k => List.replicate 16 0 ++ be64 k)).Nodup :=
  C2_nonce_layout toyAEAD [[1], [2, 3]] (by decide) (by norm_num)

/-! ## Obfuscation layer (`internal/protocol`, ObfuscatedReader / ObfuscatedWriter) -/

/-- `MaxPaddingLen = 64` from the obfuscation layer. -/
def MaxPaddingLen : Nat := 64

/-- `randomPaddingLen()`: one byte `b` from the cryptographic RNG reduced
modulo `MaxPaddingLen + 1`. -/
def randomPaddingLen (b : Nat) : Nat := b % (MaxPaddingLen + 1)

inductive ObfErr
  | shortRead
  | paddingTooLarge
  | bufferTooSmall
  deriving DecidableEq

/-- `ObfuscatedWriter.Write(p)`, with the two RNG bytes `rb1`, `rb2` that
`randomPaddingLen` consumes and the RNG-filled padding contents `pre`,
`post` made explicit (callers constrain their lengths).  Emits
`[pre_len(1)][pre][data_len(2)][data][post_len(1)][post]` and returns
`len(p)`. -/
def obfuscatedWrite (rb1 rb2 : Nat) (pre post p : List Nat) : List Nat × Nat :=
  ([randomPaddingLen rb1 % 256] ++ pre ++ be16 (p.length % 65536) ++ p
     ++ [randomPaddingLen rb2 % 256] ++ post, p.length)

/-- `ObfuscatedReader.Read(p)` with `len(p) = bufLen` on a pure input
stream.  (The source reads the 2-byte data length as two single-byte
`io.ReadFull`s; on a pure stream that equals one 2-byte read.)  Returns
the bytes delivered to the caller and the unconsumed stream. -/
def obfuscatedRead (bufLen : Nat) : List Nat → Except ObfErr (List Nat × List Nat)
  | [] => .error .shortRead
  | preLen :: s1 =>
    if preLen > MaxPaddingLen then .error .paddingTooLarge
    else
      match readFull preLen s1 with
      | none => .error .shortRead
      | some (_, s2) =>
        match s2 with
        | a :: b :: s3 =>
          if decode16 a b > bufLen then .error .bufferTooSmall
          else
            match readFull (decode16 a b) s3 with
            | none => .error .shortRead
            | some (data, s4) =>
              match s4 with
              | postLen :: s5 =>
                if postLen > MaxPaddingLen then .error .paddingTooLarge
                else
                  match readFull postLen s5 with
                  | none => .error .shortRead
                  | some (_, s6) => .ok (data.take bufLen, s6)
              | [] => .error .shortRead
        | _ => .error .shortRead

theorem randomPaddingLen_le (b : Nat) : randomPaddingLen b ≤ MaxPaddingLen := by
  unfold randomPaddingLen MaxPaddingLen
  omega

/-- Claim C5: for every payload `p` with `|p| ≤ 65535`, decoding the
envelope produced by `ObfuscatedWriter.Write(p)` with
`ObfuscatedReader.Read` into a buffer of length at least `|p|` yields
exactly `p`, whatever the RNG chose for the two padding lengths and the
padding contents; no padding byte reaches the delivered payload. -/
theorem C5_obfuscation_round_trip (rb1 rb2 : Nat) (pre post p rest : List Nat) (bufLen : Nat)
    (hpre : pre.length = randomPaddingLen rb1) (hpost : post.length = randomPaddingLen rb2)
    (hp : p.length ≤ 65535) (hbuf : p.length ≤ bufLen) :
    obfuscatedRead bufLen ((obfuscatedWrite rb1 rb2 pre post p).1 ++ rest) = .ok (p, rest) := by
  have h1le : randomPaddingLen rb1 ≤ MaxPaddingLen := randomPaddingLen_le rb1
  have h2le : randomPaddingLen rb2 ≤ MaxPaddingLen := randomPaddingLen_le rb2
  have hc1 : randomPaddingLen rb1 % 256 = randomPaddingLen rb1 :=
    Nat.mod_eq_of_lt (by unfold MaxPaddingLen at h1le; omega)
  have hc2 : randomPaddingLen rb2 % 256 = randomPaddingLen rb2 :=
    Nat.mod_eq_of_lt (by unfold MaxPaddingLen at h2le; omega)
  have hplen : p.length % 65536 = p.length := Nat.mod_eq_of_lt (by omega)
  have hrf1 : readFull (randomPaddingLen rb1)
      (pre ++ ((p.length / 256 % 256) :: (p.length % 256) :: (p
        ++ randomPaddingLen rb2 :: (post ++ rest))))
      = some (pre, (p.length / 256 % 256) :: (p.length % 256) :: (p
        ++ randomPaddingLen rb2 :: (post ++ rest))) := by
    rw [← hpre]
    exact readFull_append pre _
  have hrf2 : readFull p.length (p ++ randomPaddingLen rb2 :: (post ++ rest))
      = some (p, randomPaddingLen rb2 :: (post ++ rest)) :=
    readFull_append p _
  have hrf3 : readFull (randomPaddingLen rb2) (post ++ rest) = some (post, rest) := by
    rw [← hpost]
    exact readFull_append post _
  have hd16 : decode16 (p.length / 256 % 256) (p.length % 256) = p.length :=
    decode16_be16 p.length (by omega)
  have hif0 : ¬ randomPaddingLen rb1 > MaxPaddingLen := by omega
  have hif1 : ¬ p.length > bufLen := by omega
  have hif2 : ¬ randomPaddingLen rb2 > MaxPaddingLen := by omega
  unfold obfuscatedWrite
  simp only [be16, hplen, List.cons_append, List.nil_append, List.append_assoc]
  rw [hc1, hc2, obfuscatedRead, if_neg hif0]
  simp [hrf1, hrf2, hrf3, hd16, hif1, hif2, List.take_of_length_le hbuf]

theorem C5_obfuscation_round_trip_witness :
    obfuscatedRead 2 ((obfuscatedWrite 3 0 [9, 9, 9] [] [1, 2]).1 ++ [5]) = .ok ([1, 2], [5]) :=
  C5_obfuscation_round_trip 3 0 [9, 9, 9] [] [1, 2] [5] 2
    (by decide) (by decide) (by decide) (by decide)

/-- Claim C6 counterexample: the padding length is `b % 65` for one
uniform RNG byte `b`, and `256 = 3 * 65 + 61`, so the 65 possible
lengths are not equiprobable: 4 of the 256 byte values yield length 0
while only 3 yield length 64 — the distribution over `[0, 64]` is not
uniform as claimed. -/
theorem C6_counterexample :
    ((List.range 256).map randomPaddingLen).count 0 = 4 ∧
    ((List.range 256).map randomPaddingLen).count 64 = 3 ∧
    ¬ ((List.range 256).map randomPaddingLen).count 0
        = ((List.range 256).map randomPaddingLen).count 64 := by
  decide

/-- Claim C6 as amended: each `ObfuscatedWriter.Write` draws its pre- and
post-padding lengths by `randomPaddingLen`, which maps one uniform RNG
byte into `[0, 64]` by reduction mod 65; the resulting distribution is
slightly biased: each length in `[0, 60]` is produced by 4 of the 256
byte values, each length in `[61, 64]` by only 3. -/
theorem C6_padding_distribution (v : Nat) (hv : v ≤ 64) :
    ((List.range 256).map randomPaddingLen).count v = if v ≤ 60 then 4 else 3 := by
  have hb : ∀ w : Nat, w < 65 →
      ((List.range 256).map randomPaddingLen).count w = if w ≤ 60 then 4 else 3 := by
    decide
  exact hb v (by omega)

theorem C6_padding_distribution_witness :
    ((List.range 256).map randomPaddingLen).count 64 = if (64 : Nat) ≤ 60 then 4 else 3 :=
  C6_padding_distribution 64 (by decide)

/-! ## Handshake (`internal/protocol/handshake.go`) -/

/-- `TimeSkewAllowance = 30` seconds. -/
def TimeSkewAllowance : Int := 30

/-- Reinterpret a `uint64` bit pattern as a Go `int64`
(`timestamp := int64(binary.BigEndian.Uint64(...))`). -/
def toInt64 (u : Nat) : Int := if u < 2 ^ 63 then (u : Int) else (u : Int) - 2 ^ 64

/-- Two's-complement wrap of an integer into the `int64` range: the value
produced by any overflowing Go `int64` arithmetic. -/
def wrap64 (z : Int) : Int := (z + 2 ^ 63) % 2 ^ 64 - 2 ^ 63

/-- The helper `abs` from `handshake.go` under Go `int64` semantics:
`if n < 0 { return -n }`, where the negation wraps — so `abs` of
`-2^63` is `-2^63` again, not `2^63`. -/
def goAbs64 (n : Int) : Int := if n < 0 then wrap64 (-n) else n

inductive HsErr
  | shortRead
  | stale
  | badMac
  deriving DecidableEq

/-- Outcome of `ServerHandshake`: the Go return value, the bytes written
to the response writer, and the unread input. -/
structure HsResult where
  result : Except HsErr (List Nat)
  response : List Nat
  rest : List Nat

/-- `ServerHandshake(conn, writer, password)` at server time `now`
(`time.Now().Unix()`), with the external `hmac.New(sha256.New, key)` MAC
modelled as an abstract function `hmacFn key message` (`hmac.Equal` on
two 32-byte MACs is plain equality).  The layout indices follow the
source: `salt = handshake[:32]`, `timestampBytes = handshake[32:40]`,
`receivedMAC = handshake[40:]`.  The subtraction `now - timestamp` and
the negation inside `abs` follow Go `int64` wrapping semantics. -/
def serverHandshake (hmacFn : List Nat → List Nat → List Nat)
    (password : List Nat) (now : Int) (s : List Nat) : HsResult :=
  match readFull 72 s with
  | none => ⟨.error .shortRead, [], s⟩
  | some (handshake, rest) =>
    if goAbs64 (wrap64 (now - toInt64 (decodeBE ((handshake.drop 32).take 8))))
        > TimeSkewAllowance then
      ⟨.error .stale, [1], rest⟩
    else if ¬ handshake.drop 40
        = hmacFn password (handshake.take 32 ++ (handshake.drop 32).take 8) then
      ⟨.error .badMac, [1], rest⟩
    else ⟨.ok (handshake.take 32), [0], rest⟩

/-- Claim C1 (evaluation at the failing input): the timestamp check
overflows.  With server time `now = 1760000000` and a handshake whose
timestamp field holds `2^63 + 1760000000` (as a signed `int64`: a time
`2^63` seconds in the past) and whose MAC is valid, `now - timestamp`
wraps to `-2^63`, the Go `abs` helper returns `-2^63` (negating the
minimum `int64` overflows), `-2^63 > 30` is false, and the server
**accepts** — even though the true `|now - ts|` is `2^63 ≫ 30` seconds,
contradicting the claimed "accepts iff ... at most 30 seconds". -/
theorem C1_bug_eval :
    serverHandshake (fun _ _ => List.replicate 32 7) [] 1760000000
        (List.replicate 32 0 ++ be64 (2 ^ 63 + 1760000000) ++ List.replicate 32 7)
      = ⟨.ok (List.replicate 32 0), [0], []⟩ ∧
    30 < |(1760000000 : Int) - toInt64 (decodeBE (be64 (2 ^ 63 + 1760000000)))| := by
  constructor
  · rfl
  · decide

/-! ## Upstream SOCKS5 dialer (`internal/socks5`) -/

/-- Bytes of an ASCII string literal. -/
def strBytes (s : String) : List Nat := s.toList.map (fun ch => ch.toNat)

inductive DialErr
  | shortRead
  | badVersion
  | noAcceptableAuth
  | authTooLong
  | badAuthVersion
  | authFailed
  | badTargetAddr
  | invalidPort
  | domainTooLong
  | badReplyVersion
  | connectRefused
  | unsupportedAtyp
  deriving DecidableEq

/-- A live connection to the upstream proxy: the bytes still to be read
from it and the bytes written to it so far. -/
structure Conn where
  input : List Nat
  written : List Nat
  deriving DecidableEq

def connWrite (c : Conn) (bs : List Nat) : Conn := ⟨c.input, c.written ++ bs⟩

def connRead (n : Nat) (c : Conn) : Option (List Nat × Conn) :=
  match readFull n c.input with
  | none => none
  | some (bs, rest) => some (bs, ⟨rest, c.written⟩)

/-- `negotiateAuth`: offer method `0x00`, plus `0x02` when credentials are
present; send `[5, len(methods)] ++ methods`; read `[VER, METHOD]`. -/
def negotiateAuth (username password : List Nat) (c : Conn) :
    (Except DialErr Nat) × Conn :=
  match connRead 2 (connWrite c
      (if ¬ username = [] ∨ ¬ password = [] then [5, 2, 0, 2] else [5, 1, 0])) with
  | none => (.error .shortRead,
      connWrite c (if ¬ username = [] ∨ ¬ password = [] then [5, 2, 0, 2] else [5, 1, 0]))
  | some (resp, c2) =>
    if ¬ resp.getD 0 0 = 5 then (.error .badVersion, c2)
    else if resp.getD 1 0 = 255 then (.error .noAcceptableAuth, c2)
    else (.ok (resp.getD 1 0), c2)

/-- `authenticate` (RFC 1929 sub-negotiation):
`[1, ULEN] ++ UNAME ++ [PLEN] ++ PASSWD`, expect `[1, 0]`. -/
def authenticate (username password : List Nat) (c : Conn) :
    (Except DialErr Unit) × Conn :=
  if username.length > 255 ∨ password.length > 255 then (.error .authTooLong, c)
  else
    match connRead 2 (connWrite c
        ([1, username.length] ++ username ++ password.length :: password)) with
    | none => (.error .shortRead,
        connWrite c ([1, username.length] ++ username ++ password.length :: password))
    | some (resp, c2) =>
      if ¬ resp.getD 0 0 = 1 then (.error .badAuthVersion, c2)
      else if ¬ resp.getD 1 0 = 0 then (.error .authFailed, c2)
      else (.ok (), c2)

/-- Split at the **last** colon (byte 58), as `net.SplitHostPort` does for
bracket-free addresses. -/
def lastColonSplit : List Nat → Option (List Nat × List Nat)
  | [] => none
  | c :: tl =>
    match lastColonSplit tl with
    | some (h, p) => some (c :: h, p)
    | none => if c = 58 then some ([], tl) else none

/-- `net.SplitHostPort` modelled for bracket-free ASCII addresses: split at
the last colon; a further colon in the host part is Go's "too many
colons" error.  (Bracketed IPv6 literals are outside this model.) -/
def splitHostPort (s : List Nat) : Option (List Nat × List Nat) :=
  match lastColonSplit s with
  | none => none
  | some (host, port) => if (58 : Nat) ∈ host then none else some (host, port)

def isDigit (b : Nat) : Bool := decide (48 ≤ b ∧ b ≤ 57)

def digitsToNat (ds : List Nat) : Option Nat :=
  if ds = [] then none
  else if ds.all isDigit then
    some (ds.foldl (fun acc b => acc * 10 + (b - 48)) 0)
  else none

/-- `strconv.Atoi` restricted to what the dialer feeds it: an optional
minus sign then decimal digits. -/
def atoi (s : List Nat) : Option Int :=
  match s with
  | 45 :: tl => (digitsToNat tl).map (fun n => -(n : Int))
  | _ => (digitsToNat s).map (fun n => (n : Int))

/-- What `net.ParseIP` (plus `To4`) reports for a host: an IPv4, an IPv6,
or not an IP literal.  External stdlib, so kept as a parameter. -/
inductive ParsedIP
  | v4 (bytes : List Nat)
  | v6 (bytes : List Nat)
  deriving DecidableEq

def skipBind (addrLen : Nat) (c : Conn) : (Except DialErr Unit) × Conn :=
  match connRead (addrLen + 2) c with
  | none => (.error .shortRead, c)
  | some (_, c1) => (.ok (), c1)

/-- `sendConnectRequest`: parse `host:port` from the target, validate the
port, choose ATYP (parameterised by `parseIPFn` for `net.ParseIP`),
reject non-IP hosts longer than 255 bytes, then write the CONNECT request
and read the reply.  Both validation failure points come **before** the
`conn.Write` of the request. -/
def sendConnectRequest (parseIPFn : List Nat → Option ParsedIP)
    (targetAddr : List Nat) (c : Conn) : (Except DialErr Unit) × Conn :=
  match splitHostPort targetAddr with
  | none => (.error .badTargetAddr, c)
  | some (host, portStr) =>
    match atoi portStr with
    | none => (.error .invalidPort, c)
    | some port =>
      if port < 1 ∨ port > 65535 then (.error .invalidPort, c)
      else
        match (match parseIPFn host with
               | some (.v4 ip) => some ([1] ++ ip)
               | some (.v6 ip) => some ([4] ++ ip)
               | none =>
                 if host.length > 255 then none
                 else some ([3, host.length] ++ host)) with
        | none => (.error .domainTooLong, c)
        | some addrPart =>
          match connRead 4 (connWrite c ([5, 1, 0] ++ addrPart
              ++ [port.toNat / 256 % 256, port.toNat % 256])) with
          | none => (.error .shortRead, connWrite c ([5, 1, 0] ++ addrPart
              ++ [port.toNat / 256 % 256, port.toNat % 256]))
          | some (resp, c2) =>
            if ¬ resp.getD 0 0 = 5 then (.error .badReplyVersion, c2)
            else if ¬ resp.getD 1 0 = 0 then (.error .connectRefused, c2)
            else
              match resp.getD 3 0 with
              | 1 => skipBind 4 c2
              | 4 => skipBind 16 c2
              | 3 =>
                match connRead 1 c2 with
                | none => (.error .shortRead, c2)
                | some (lb, c3) => skipBind (lb.getD 0 0) c3
              | _ => (.error .unsupportedAtyp, c2)

/-- `performHandshake`: method negotiation, then optional RFC 1929 auth,
then the CONNECT request. -/
def performHandshake (parseIPFn : List Nat → Option ParsedIP)
    (username password targetAddr : List Nat) (c : Conn) :
    (Except DialErr Unit) × Conn :=
  match negotiateAuth username password c with
  | (.error e, c1) => (.error e, c1)
  | (.ok m, c1) =>
    match (if m = 2 then authenticate username password c1 else (.ok (), c1)) with
    | (.error e, c2) => (.error e, c2)
    | (.ok _, c2) => sendConnectRequest parseIPFn targetAddr c2

/-- Claim C7 counterexample: dialing target `"example.com:0"` (port
outside [1, 65535]) through the upstream dialer does fail locally — but
only **after** the method-negotiation request `[0x05, 0x01, 0x00]` has
already been written to the upstream proxy connection, not "before any
bytes are written" as claimed. -/
theorem C7_counterexample :
    performHandshake (fun _ => none) [] [] (strBytes "example.com:0") ⟨[5, 0], []⟩
      = (.error .invalidPort, ⟨[], [5, 1, 0]⟩) ∧
    ¬ (performHandshake (fun _ => none) [] [] (strBytes "example.com:0")
        ⟨[5, 0], []⟩).2.written = [] := by
  constructor
  · rfl
  · decide

/-- Claim C7 as amended: a target whose port is outside [1, 65535], or
whose host is not an IP literal and longer than 255 bytes, makes the
upstream dial fail locally before the CONNECT request is sent — but the
method-negotiation bytes `[0x05, 0x01, 0x00]` have already been written
to the upstream connection by then, because the validation happens in
`sendConnectRequest`, after `negotiateAuth`. -/
theorem C7_validation_after_negotiation (parseIPFn : List Nat → Option ParsedIP)
    (host portStr targetAddr : List Nat) (port : Int) (inputRest : List Nat)
    (hsplit : splitHostPort targetAddr = some (host, portStr))
    (hatoi : atoi portStr = some port)
    (hbad : port < 1 ∨ port > 65535 ∨ (parseIPFn host = none ∧ host.length > 255)) :
    ∃ e, performHandshake parseIPFn [] [] targetAddr ⟨5 :: 0 :: inputRest, []⟩
      = (.error e, ⟨inputRest, [5, 1, 0]⟩) := by
  have hneg : negotiateAuth [] [] ⟨5 :: 0 :: inputRest, []⟩
      = (.ok 0, ⟨inputRest, [5, 1, 0]⟩) := by
    unfold negotiateAuth connWrite connRead readFull
    simp
  by_cases hpb : port < 1 ∨ port > 65535
  · refine ⟨.invalidPort, ?_⟩
    simp only [performHandshake, hneg]
    rw [if_neg (by decide : ¬ (0 : Nat) = 2)]
    simp only [sendConnectRequest, hsplit, hatoi, if_pos hpb]
  · rcases hbad with h | h | h
    · exact absurd (Or.inl h) hpb
    · exact absurd (Or.inr h) hpb
    · refine ⟨.domainTooLong, ?_⟩
      simp only [performHandshake, hneg]
      rw [if_neg (by decide : ¬ (0 : Nat) = 2)]
      simp only [sendConnectRequest, hsplit, hatoi, if_neg hpb, h.1, if_pos h.2]

theorem C7_validation_after_negotiation_witness :
    ∃ e, performHandshake (fun _ => none) [] [] (strBytes "example.com:99999") ⟨[5, 0], []⟩
      = (.error e, ⟨[], [5, 1, 0]⟩) :=
  C7_validation_after_negotiation (fun _ => none)
    (strBytes "example.com") (strBytes "99999") (strBytes "example.com:99999")
    99999 [] (by decide) (by decide) (by decide)

/-! ## HTTP-CONNECT ingress (`cmd/local/main.go` `handleHTTPProxy` and
`internal/httpproxy/handler.go` `HandleHTTPConnect`) -/

/-- `unicode.IsSpace` restricted to ASCII: the separator set
`strings.Fields` uses on ASCII request lines. -/
def goIsSpace (b : Nat) : Bool :=
  b == 9 || b == 10 || b == 11 || b == 12 || b == 13 || b == 32

def fieldsAux : List Nat → List Nat → List (List Nat)
  | [], acc => if acc = [] then [] else [acc.reverse]
  | b :: tl, acc =>
    if goIsSpace b then
      if acc = [] then fieldsAux tl [] else acc.reverse :: fieldsAux tl []
    else fieldsAux tl (b :: acc)

/-- `strings.Fields`: split around runs of white space. -/
def fields (s : List Nat) : List (List Nat) := fieldsAux s []

inductive HTTPDecision
  | reject400
  | tunnelAttempt (target : List Nat)
  deriving DecidableEq

/-- The front of `HandleHTTPConnect`: split the request line with
`strings.Fields`; fewer than 2 fields means reply `400 Bad Request` and
stop; otherwise `parts[1]` becomes the tunnel target and the handler
proceeds to dial the proxy server, handshake, and send the target. -/
def handleHTTPConnectParse (requestLine : List Nat) : HTTPDecision :=
  if (fields requestLine).length < 2 then .reject400
  else .tunnelAttempt ((fields requestLine).getD 1 [])

/-- The dispatch in `handleHTTPProxy` (`cmd/local/main.go`): the request
line is tested for the `CONNECT` prefix, but **both** branches call
`httpproxy.HandleHTTPConnect` (the else branch merely carries a comment
that other methods are unsupported). -/
def handleHTTPProxy (requestLine : List Nat) : HTTPDecision :=
  if 7 ≤ requestLine.length ∧ requestLine.take 7 = strBytes "CONNECT" then
    handleHTTPConnectParse requestLine
  else
    handleHTTPConnectParse requestLine

/-- Claim C8 (evaluation at the failing input): the request line
`"GET /index.html HTTP/1.1"` does not use the CONNECT method, yet the
ingress does not reject it: `handleHTTPProxy` forwards it to
`HandleHTTPConnect`, which parses `"/index.html"` as the tunnel target
and proceeds to contact the proxy server — no HTTP error reply, no
close. -/
theorem C8_bug_eval :
    handleHTTPProxy (strBytes "GET /index.html HTTP/1.1\r\n")
      = .tunnelAttempt (strBytes "/index.html") ∧
    ¬ (strBytes "GET /index.html HTTP/1.1\r\n").take 7 = strBytes "CONNECT" := by
  constructor
  · decide
  · decide

end GoProxy
